import Mathlib

/-!
Verification of the task-orchestration core of the mcp-inception server
(src/index.ts): the delegate channel (safeCommandPipe), the bounded
parallel dispatcher (executeParallel), the sequential map-reduce
(executeMapReduce), and the tool request handlers.

The external process spawned by safeCommandPipe is modelled by an
oracle, a function from the exact text written to the process standard
input (the possibly directive-extended prompt followed by a newline) to
the observable behaviour of the process: either an exit with a code and
the accumulated stdout and stderr texts, or a failure to start.
Promise rejection is modelled with Except: a rejected promise is an
Except.error carrying the rejection message, and a try/catch block is a
match on the Except value.
-/

namespace Inception

/-- Observable behaviour of one spawned external process: exit with a
code plus accumulated stdout/stderr, or failure to start
(the error event of the child process). -/
inductive ProcResult where
  | exited (code : Int) (stdout stderr : String)
  | startFailure (msg : String)
deriving DecidableEq

/-- The external executable, abstracted: maps the full text written to
the process standard input to the process behaviour. -/
abbrev Oracle := String → ProcResult

/-- The fixed directive appended when forceJson is true
(src/index.ts line 104). -/
def jsonDirective : String := " [RESPOND IN JSON KEY-VALUE PAIRS]"

/-- safeCommandPipe (src/index.ts lines 62-108).  Writes the input
(with the JSON directive appended when forceJson) plus a newline to the
process, and settles the promise from the close/error events: exit code
zero resolves with the pair (stdout, stderr); a nonzero exit code
rejects with a message carrying the code and the full stderr; an error
event rejects with a start-failure message.  The command parameter of
the source is unused there (the spawned path is always the configured
executable), so it is dropped here; the spawned program is the oracle. -/
def safeCommandPipe (oracle : Oracle) (input : String) (forceJson : Bool) :
    Except String (String × String) :=
  let inputWithDirective := if forceJson then input ++ jsonDirective else input
  match oracle (inputWithDirective ++ "\n") with
  | .exited code out err =>
      if code = 0 then .ok (out, err)
      else .error ("Command failed with code " ++ toString code ++ ". stderr: " ++ err)
  | .startFailure msg => .error ("Failed to start process: " ++ msg)

/-- A tool response as returned to the outer MCP transport: the text of
the single content block and the isError flag (absent is false). -/
structure ToolResponse where
  text : String
  isErrorFlag : Bool
deriving DecidableEq

/-- The execute_mcp_client handler (src/index.ts lines 274-297):
on success the text is stdout when non-empty, otherwise stderr; on a
rejection the text is the error message (or the fallback) and the
isError flag is set. -/
def executeMcpClient (oracle : Oracle) (command : String) : ToolResponse :=
  match safeCommandPipe oracle command false with
  | .ok (out, err) => { text := if out = "" then err else out, isErrorFlag := false }
  | .error msg =>
      { text := "Error executing MCP client command: " ++
          (if msg = "" then "Unknown error" else msg),
        isErrorFlag := true }

/-- Left-to-right global replacement of the non-empty pattern
pat :: pats in a character list, replacements not rescanned; the JS
String.prototype.replace with a global literal regexp.  The fuel
argument (instantiated with the length of the scanned list) keeps the
recursion structural. -/
def scanReplace (pat : Char) (pats rep : List Char) : Nat → List Char → List Char
  | _, [] => []
  | 0, l => l
  | fuel + 1, c :: rest =>
      if (pat :: pats).isPrefixOf (c :: rest) then
        rep ++ scanReplace pat pats rep fuel (rest.drop pats.length)
      else
        c :: scanReplace pat pats rep fuel rest

/-- All occurrences of pat in s replaced by rep, scanning left to
right; models the JS s.replace(/pat/g, rep) for a literal pattern. -/
def replaceAll (s pat rep : String) : String :=
  match pat.data with
  | [] => s
  | p :: ps => String.mk (scanReplace p ps rep.data s.data.length s.data)

/-- Outcome of one dispatched item, after the per-item try/catch
(src/index.ts lines 135-150 and 184-195): a non-empty stdout is a
success; an empty stdout with non-empty stderr, or a rejection, is a
failure message; empty stdout and empty stderr record nothing. -/
inductive ItemOutcome where
  | success (out : String)
  | failure (msg : String)
  | silent
deriving DecidableEq

/-- Classify one settled delegate call for an item, building the exact
failure messages of the source. -/
def classifyOutput (item : String) : Except String (String × String) → ItemOutcome
  | .ok (out, err) =>
      if out = "" then
        if err = "" then .silent
        else .failure ("Error processing item \"" ++ item ++ "\": " ++ err)
      else .success out
  | .error msg => .failure ("Failed to process item \"" ++ item ++ "\": " ++ msg)

/-- One item of executeParallel: the prompt and the item are joined by
a space (src/index.ts line 186), forceJson true. -/
def parItemOutcome (oracle : Oracle) (prompt item : String) : ItemOutcome :=
  classifyOutput item (safeCommandPipe oracle (prompt ++ " " ++ item) true)

/-- One item of the map phase of executeMapReduce: the marker token in
the map prompt is replaced by the item (src/index.ts line 138),
forceJson true. -/
def mapItemOutcome (oracle : Oracle) (mapPrompt item : String) : ItemOutcome :=
  classifyOutput item (safeCommandPipe oracle (replaceAll mapPrompt "{item}" item) true)

/-- The successful output of an outcome, if any. -/
def successOf : ItemOutcome → Option String
  | .success out => some out
  | _ => none

/-- The failure message of an outcome, if any. -/
def failureOf : ItemOutcome → Option String
  | .failure msg => some msg
  | _ => none

/-- Record one settled outcome into the growing (results, errors)
pair: success appends to results, failure appends to errors, a silent
outcome records nothing. -/
def pushOutcome (acc : List String × List String) : ItemOutcome → List String × List String
  | .success out => (acc.1 ++ [out], acc.2)
  | .failure msg => (acc.1, acc.2 ++ [msg])
  | .silent => acc

/-- The chunking of the dispatch loops (src/index.ts lines 133-134 and
182-183): for i = 0, c, 2c, ... the chunk items.slice(i, i + c); the
loop body runs ceil(n / c) times, and slice(i, i + c) is
take c (drop i). -/
def chunksOf {α : Type} (c : Nat) (items : List α) : List (List α) :=
  (List.range ((items.length + c - 1) / c)).map (fun k => (items.drop (k * c)).take c)

/-- Settle the outcomes of the given per-chunk processing orders, one
chunk after the other, recording each outcome as it settles. -/
def collectOutcomes (F : String → ItemOutcome) (ords : List (List String)) :
    List String × List String :=
  ords.foldl (fun acc ord => ord.foldl (fun a it => pushOutcome a (F it)) acc) ([], [])

/-- executeParallel (src/index.ts lines 177-202) with the settling
order of each chunk made explicit: ords lists, chunk by chunk, the
order in which the concurrent calls of that chunk settle and push their
outcome.  Each entry is required (in the theorems) to be a permutation
of the corresponding chunk. -/
def executeParallelWith (oracle : Oracle) (prompt : String) (ords : List (List String)) :
    List String × List String :=
  collectOutcomes (parItemOutcome oracle prompt) ords

/-- executeParallel with the submission order as settling order. -/
def executeParallel (c : Nat) (oracle : Oracle) (prompt : String) (items : List String) :
    List String × List String :=
  executeParallelWith oracle prompt (chunksOf c items)

/-- The map phase of executeMapReduce (src/index.ts lines 129-155):
chunked like executeParallel; the successful outputs of a chunk are
collected in submission order (Promise.all ordering followed by
filter(Boolean)), the failure messages are pushed per item. -/
def mapPhase (c : Nat) (oracle : Oracle) (mapPrompt : String) (items : List String) :
    List String × List String :=
  collectOutcomes (mapItemOutcome oracle mapPrompt) (chunksOf c items)

/-- One reduce prompt: the accumulator marker is substituted first,
then the result marker (src/index.ts lines 160-162). -/
def formatReduce (reducePrompt acc res : String) : String :=
  replaceAll (replaceAll reducePrompt "{accumulator}" acc) "{result}" res

/-- The sequential reduce loop (src/index.ts lines 157-168).  Each step
awaits one delegate call: a resolution with non-empty stdout replaces
the accumulator, a resolution with empty stdout leaves it unchanged,
and a rejection escapes the loop (there is no per-step catch), carrying
the accumulator reached so far together with the rejection message. -/
def reduceFold (oracle : Oracle) (reducePrompt : String) :
    List String → String → Except (String × String) String
  | [], acc => .ok acc
  | r :: rest, acc =>
      match safeCommandPipe oracle (formatReduce reducePrompt acc r) true with
      | .ok (out, _) => reduceFold oracle reducePrompt rest (if out = "" then acc else out)
      | .error msg => .error (acc, msg)

/-- executeMapReduce (src/index.ts lines 119-175): map phase, then the
reduce loop inside the try block; an escaped rejection is caught by the
single outer catch, which appends one summary message to the error list
and returns the accumulator reached so far. -/
def executeMapReduce (c : Nat) (oracle : Oracle) (mapPrompt reducePrompt : String)
    (items : List String) (initialValue : Option String) : String × List String :=
  let acc0 := initialValue.getD ""
  let m := mapPhase c oracle mapPrompt items
  match reduceFold oracle reducePrompt m.1 acc0 with
  | .ok acc => (acc, m.2)
  | .error (acc, msg) => (acc, m.2 ++ ["Map-reduce operation failed: " ++ msg])

/-- The execute_parallel_mcp_client handler (src/index.ts lines
299-324): text is the serialization of the results and errors, isError
is set when the error list is non-empty.  The JSON serializer is a
platform library, abstracted as a parameter. -/
def parallelToolResult (stringify : List String × List String → String)
    (c : Nat) (oracle : Oracle) (prompt : String) (items : List String) : ToolResponse :=
  let r := executeParallel c oracle prompt items
  { text := stringify r, isErrorFlag := decide (0 < r.2.length) }

/-- The execute_map_reduce_mcp_client handler (src/index.ts lines
326-361). -/
def mapReduceToolResult (stringify : String × List String → String)
    (c : Nat) (oracle : Oracle) (mapPrompt reducePrompt : String)
    (items : List String) (initialValue : Option String) : ToolResponse :=
  let r := executeMapReduce c oracle mapPrompt reducePrompt items initialValue
  { text := stringify r, isErrorFlag := decide (0 < r.2.length) }

/-- A call lifecycle event of the dispatcher, over item indices:
the call for item i starts, or the call for item i settles. -/
inductive DEvent where
  | start (i : Nat)
  | settle (i : Nat)
deriving DecidableEq

/-- Contribution of an event to the number of outstanding calls. -/
def eventWeight : DEvent → Int
  | .start _ => 1
  | .settle _ => -1

/-- Number of outstanding delegate calls after a sequence of events. -/
def pending (tr : List DEvent) : Int := (tr.map eventWeight).sum

/-- The events of one chunk: chunk.map starts every call of the chunk
in submission order; the calls then settle in some order (ord), and
Promise.all holds the loop until all of them have settled. -/
def chunkEvents (ch ord : List Nat) : List DEvent :=
  ch.map DEvent.start ++ ord.map DEvent.settle

/-- The event trace of a whole dispatch: the chunks run strictly one
after the other, each contributing its start batch and settle order. -/
def dispatchTrace (idxChunks ords : List (List Nat)) : List DEvent :=
  (List.zipWith chunkEvents idxChunks ords).flatten

/-- Oracle used in concrete instances: the map call on item a succeeds
with output A, every other call exits with code 1 and stderr boom. -/
def oracleReduceBoom : Oracle := fun s =>
  if s = "a" ++ jsonDirective ++ "\n" then .exited 0 "A" ""
  else .exited 1 "" "boom"

/-- Oracle used in concrete witnesses of the parallel dispatcher: the
call for item b fails with exit code 7, every other call succeeds. -/
def oracleOneBad : Oracle := fun s =>
  if s = "p b" ++ jsonDirective ++ "\n" then .exited 7 "" "bad"
  else .exited 0 "ok" ""

/-- Oracle used in concrete witnesses of the single delegate call. -/
def oracleSingle : Oracle := fun s =>
  if s = "q\n" then .exited 0 "out" "diag" else .exited 5 "" "oops"

/-- Oracle used in concrete witnesses of the reduce loop: every call
resolves, the reduce call on the first mapped output resolving with
empty stdout. -/
def oracleEmptyReduce : Oracle := fun s =>
  if s = "a" ++ jsonDirective ++ "\n" then .exited 0 "A" ""
  else if s = "b" ++ jsonDirective ++ "\n" then .exited 0 "B" ""
  else if s = "A" ++ jsonDirective ++ "\n" then .exited 0 "" "quiet"
  else .exited 0 "RB" ""

/-!  Helper lemmas about the chunking. -/

theorem chunksOf_nil {α : Type} (c : Nat) : chunksOf c ([] : List α) = [] := by
  unfold chunksOf
  cases c with
  | zero => simp
  | succ c => simp [Nat.div_eq_of_lt (Nat.lt_succ_self c)]

theorem length_chunksOf {α : Type} (c : Nat) (l : List α) :
    (chunksOf c l).length = (l.length + c - 1) / c := by
  simp [chunksOf]

theorem numChunks_step (c n : Nat) (hc : 1 ≤ c) (hn : 1 ≤ n) :
    (n + c - 1) / c = ((n - c) + c - 1) / c + 1 := by
  have h1 : n + c - 1 = (n - 1) + c := by omega
  rw [h1, Nat.add_div_right _ (by omega)]
  rcases le_or_lt n c with h | h
  · have h2 : n - c = 0 := by omega
    rw [h2]
    have h3 : (n - 1) / c = 0 := Nat.div_eq_of_lt (by omega)
    have h4 : (0 + c - 1) / c = 0 := Nat.div_eq_of_lt (by omega)
    omega
  · have h2 : n - c + c - 1 = n - 1 := by omega
    rw [h2]

theorem chunksOf_cons_eq {α : Type} (c : Nat) (hc : 1 ≤ c) (l : List α) (hl : l ≠ []) :
    chunksOf c l = l.take c :: chunksOf c (l.drop c) := by
  have hn : 1 ≤ l.length := List.length_pos.mpr hl
  unfold chunksOf
  rw [List.length_drop, numChunks_step c l.length hc hn, List.range_succ_eq_map,
    List.map_cons, List.map_map]
  congr 1
  · simp
  · apply List.map_congr_left
    intro k _
    simp only [Function.comp_apply, List.drop_drop]
    congr 2
    have := Nat.succ_mul k c
    omega

theorem flatten_chunksOf {α : Type} (c : Nat) (hc : 1 ≤ c) (l : List α) :
    (chunksOf c l).flatten = l := by
  by_cases hl : l = []
  · subst hl; simp [chunksOf_nil]
  · rw [chunksOf_cons_eq c hc l hl, List.flatten_cons, flatten_chunksOf c hc (l.drop c)]
    exact List.take_append_drop c l
termination_by l.length
decreasing_by
  have := List.length_pos.mpr hl
  simp only [List.length_drop]
  omega

theorem length_le_of_mem_chunksOf {α : Type} (c : Nat) (l : List α) (ch : List α)
    (h : ch ∈ chunksOf c l) : ch.length ≤ c := by
  simp only [chunksOf, List.mem_map, List.mem_range] at h
  obtain ⟨k, _, rfl⟩ := h
  simp [List.length_take]

theorem ne_nil_of_mem_chunksOf {α : Type} (c : Nat) (hc : 1 ≤ c) (l : List α) (ch : List α)
    (h : ch ∈ chunksOf c l) : ch ≠ [] := by
  simp only [chunksOf, List.mem_map, List.mem_range] at h
  obtain ⟨k, hk, rfl⟩ := h
  have h1 : (k + 1) * c ≤ l.length + c - 1 :=
    le_trans (Nat.mul_le_mul_right c hk) (Nat.div_mul_le_self _ _)
  have h2 : (k + 1) * c = k * c + c := Nat.succ_mul k c
  have hkc : k * c < l.length := by omega
  apply List.ne_nil_of_length_pos
  simp only [List.length_take, List.length_drop]
  omega

theorem chunksOf_getD {α : Type} (c : Nat) (l : List α) (k : Nat)
    (hk : k < (chunksOf c l).length) :
    (chunksOf c l).getD k [] = (l.drop (k * c)).take c := by
  have hk' : k < (l.length + c - 1) / c := by simpa [chunksOf] using hk
  simp [chunksOf, List.getD_eq_getElem?_getD, List.getElem?_map, List.getElem?_range, hk']

theorem chunksOf_full {α : Type} (c : Nat) (l : List α) (k : Nat)
    (hk : k + 1 < (chunksOf c l).length) : ((chunksOf c l).getD k []).length = c := by
  have hk' : k + 1 < (l.length + c - 1) / c := by simpa [chunksOf] using hk
  rw [chunksOf_getD c l k (by simp [chunksOf]; omega)]
  have h1 : (k + 2) * c ≤ l.length + c - 1 :=
    le_trans (Nat.mul_le_mul_right c hk') (Nat.div_mul_le_self _ _)
  have h2 : (k + 2) * c = k * c + c + c := by ring
  simp only [List.length_take, List.length_drop]
  omega

/-!  Helper lemmas about outcome collection and the reduce loop. -/

theorem foldl_push_eq (F : String → ItemOutcome) (ord : List String)
    (acc : List String × List String) :
    ord.foldl (fun a it => pushOutcome a (F it)) acc =
      (acc.1 ++ ord.filterMap (fun it => successOf (F it)),
       acc.2 ++ ord.filterMap (fun it => failureOf (F it))) := by
  induction ord generalizing acc with
  | nil => simp
  | cons x xs ih =>
    rw [List.foldl_cons, ih]
    cases hF : F x <;>
      simp [pushOutcome, hF, successOf, failureOf, List.filterMap_cons]

theorem collect_go (F : String → ItemOutcome) (ords : List (List String))
    (acc : List String × List String) :
    ords.foldl (fun acc ord => ord.foldl (fun a it => pushOutcome a (F it)) acc) acc =
      (acc.1 ++ (ords.flatten).filterMap (fun it => successOf (F it)),
       acc.2 ++ (ords.flatten).filterMap (fun it => failureOf (F it))) := by
  induction ords generalizing acc with
  | nil => simp
  | cons o os ih =>
    rw [List.foldl_cons, foldl_push_eq, ih]
    simp [List.flatten_cons, List.filterMap_append]

theorem collectOutcomes_eq (F : String → ItemOutcome) (ords : List (List String)) :
    collectOutcomes F ords =
      ((ords.flatten).filterMap (fun it => successOf (F it)),
       (ords.flatten).filterMap (fun it => failureOf (F it))) := by
  simpa [collectOutcomes] using collect_go F ords ([], [])

theorem reduceFold_append (oracle : Oracle) (rp : String) (xs ys : List String) (acc : String) :
    reduceFold oracle rp (xs ++ ys) acc =
      match reduceFold oracle rp xs acc with
      | .ok a => reduceFold oracle rp ys a
      | .error e => .error e := by
  induction xs generalizing acc with
  | nil => simp [reduceFold]
  | cons r rest ih =>
    simp only [List.cons_append, reduceFold]
    cases safeCommandPipe oracle (formatReduce rp acc r) true with
    | ok p => exact ih _
    | error m => rfl

theorem reduceFold_error_split (oracle : Oracle) (rp : String) (l : List String)
    (acc0 a m : String) (h : reduceFold oracle rp l acc0 = .error (a, m)) :
    ∃ done r rest, l = done ++ r :: rest ∧
      reduceFold oracle rp done acc0 = .ok a ∧
      safeCommandPipe oracle (formatReduce rp a r) true = .error m := by
  induction l generalizing acc0 with
  | nil => simp [reduceFold] at h
  | cons r rest ih =>
    rw [reduceFold] at h
    cases hs : safeCommandPipe oracle (formatReduce rp acc0 r) true with
    | ok p =>
      rw [hs] at h
      obtain ⟨d, r', rest', hsplit, hok, hfail⟩ := ih _ h
      refine ⟨r :: d, r', rest', by simp [hsplit], ?_, hfail⟩
      rw [reduceFold, hs]
      exact hok
    | error e =>
      rw [hs] at h
      obtain ⟨rfl, rfl⟩ : acc0 = a ∧ e = m := by
        cases h; exact ⟨rfl, rfl⟩
      exact ⟨[], r, rest, rfl, rfl, hs⟩

theorem classifyOutput_failure_shape (it : String) (r : Except String (String × String))
    (m : String) (h : classifyOutput it r = .failure m) :
    ∃ d, m = "Error processing item \"" ++ it ++ "\": " ++ d ∨
         m = "Failed to process item \"" ++ it ++ "\": " ++ d := by
  cases r with
  | ok p =>
    obtain ⟨out, err⟩ := p
    by_cases h1 : out = "" <;> by_cases h2 : err = "" <;>
      simp [classifyOutput, h1, h2] at h
    exact ⟨err, Or.inl h.symm⟩
  | error msg =>
    simp [classifyOutput] at h
    exact ⟨msg, Or.inr h.symm⟩

theorem flatten_perm_of_forall₂ {α : Type} (l₁ l₂ : List (List α))
    (h : List.Forall₂ (fun a b => a.Perm b) l₁ l₂) : l₁.flatten.Perm l₂.flatten := by
  induction h with
  | nil => rfl
  | cons hab _ ih => simpa using hab.append ih

theorem filterMap_eq_nil_of_none {α β : Type} (g : α → Option β) (l : List α)
    (h : ∀ y ∈ l, g y = none) : l.filterMap g = [] := by
  induction l with
  | nil => rfl
  | cons a as ih =>
    rw [List.filterMap_cons, h a (by simp)]
    exact ih fun y hy => h y (by simp [hy])

theorem filterMap_eq_singleton_of_count_one {α β : Type} [DecidableEq α] (g : α → Option β)
    (l : List α) (x : α) (m : β) (hc : l.count x = 1)
    (hother : ∀ y ∈ l, y ≠ x → g y = none) (hx : g x = some m) :
    l.filterMap g = [m] := by
  induction l with
  | nil => simp at hc
  | cons a as ih =>
    by_cases hax : a = x
    · subst hax
      have hcnt : as.count a = 0 := by
        have := List.count_cons_self a as
        omega
      have hnone : ∀ y ∈ as, g y = none := by
        intro y hy
        refine hother y (by simp [hy]) ?_
        rintro rfl
        exact absurd (List.count_pos_iff.mpr hy) (by omega)
      rw [List.filterMap_cons, hx, filterMap_eq_nil_of_none g as hnone]
    · have hcount : as.count x = 1 := by
        rw [List.count_cons_of_ne (Ne.symm hax)] at hc
        exact hc
      have hga : g a = none := hother a (by simp) hax
      rw [List.filterMap_cons, hga]
      exact ih hcount fun y hy hyx => hother y (by simp [hy]) hyx

theorem length_filterMap_of_all_some {α β : Type} (g : α → Option β) (l : List α)
    (h : ∀ y ∈ l, ∃ o, g y = some o) : (l.filterMap g).length = l.length := by
  induction l with
  | nil => rfl
  | cons a as ih =>
    obtain ⟨o, ho⟩ := h a (by simp)
    rw [List.filterMap_cons, ho]
    simp [ih fun y hy => h y (by simp [hy])]

theorem length_filterMap_of_single_none {α β : Type} [DecidableEq α] (g : α → Option β)
    (l : List α) (x : α) (hc : l.count x = 1)
    (hother : ∀ y ∈ l, y ≠ x → ∃ o, g y = some o) (hx : g x = none) :
    (l.filterMap g).length = l.length - 1 := by
  induction l with
  | nil => simp at hc
  | cons a as ih =>
    by_cases hax : a = x
    · subst hax
      have hcnt : as.count a = 0 := by
        have := List.count_cons_self a as
        omega
      have hall : ∀ y ∈ as, ∃ o, g y = some o := by
        intro y hy
        refine hother y (by simp [hy]) ?_
        rintro rfl
        exact absurd (List.count_pos_iff.mpr hy) (by omega)
      rw [List.filterMap_cons, hx]
      simp [length_filterMap_of_all_some g as hall]
    · obtain ⟨o, ho⟩ := hother a (by simp) hax
      have hcount : as.count x = 1 := by
        rw [List.count_cons_of_ne (Ne.symm hax)] at hc
        exact hc
      have hxmem : x ∈ as := List.count_pos_iff.mp (by omega)
      have hlen : 1 ≤ as.length := List.length_pos.mpr (List.ne_nil_of_mem hxmem)
      rw [List.filterMap_cons, ho]
      simp only [List.length_cons]
      rw [ih hcount fun y hy hyx => hother y (by simp [hy]) hyx]
      omega

/-!  Claim theorems. -/

/-- Claim C6: when the item list is empty, the parallel dispatcher
returns an empty result sequence and an empty error list; map-reduce
returns the accumulator equal to the initial value (empty string when
no initial value is supplied) and an empty error list; and with zero
external process invocations, expressed both by an empty chunk list
(so no dispatch events) and by the result not depending on the
oracle. -/
theorem empty_items_noop (c : Nat) (oracle : Oracle)
    (prompt mapPrompt reducePrompt : String) (initialValue : Option String) :
    executeParallel c oracle prompt [] = ([], []) ∧
    executeMapReduce c oracle mapPrompt reducePrompt [] initialValue =
      (initialValue.getD "", []) ∧
    executeMapReduce c oracle mapPrompt reducePrompt [] none = ("", []) ∧
    chunksOf c ([] : List String) = [] ∧
    (∀ oracle₂ : Oracle,
      executeParallel c oracle prompt [] = executeParallel c oracle₂ prompt [] ∧
      executeMapReduce c oracle mapPrompt reducePrompt [] initialValue =
        executeMapReduce c oracle₂ mapPrompt reducePrompt [] initialValue) := by
  have hpar : ∀ o : Oracle, executeParallel c o prompt [] = ([], []) := by
    intro o
    simp [executeParallel, executeParallelWith, chunksOf_nil, collectOutcomes]
  have hmr : ∀ o : Oracle,
      executeMapReduce c o mapPrompt reducePrompt [] initialValue =
        (initialValue.getD "", []) := by
    intro o
    simp [executeMapReduce, mapPhase, chunksOf_nil, collectOutcomes, reduceFold]
  refine ⟨hpar oracle, hmr oracle, ?_, chunksOf_nil c, fun o₂ => ⟨?_, ?_⟩⟩
  · simp [executeMapReduce, mapPhase, chunksOf_nil, collectOutcomes, reduceFold]
  · rw [hpar oracle, hpar o₂]
  · rw [hmr oracle, hmr o₂]

/-- Claim C8: for both batch handlers, the error flag of the returned
payload is set exactly when the error list is non-empty, and the
payload text is the serialization of the results (or result) together
with the errors. -/
theorem payload_error_flag (stringifyP : List String × List String → String)
    (stringifyM : String × List String → String) (c : Nat) (oracle : Oracle)
    (prompt mapPrompt reducePrompt : String) (items : List String)
    (initialValue : Option String) :
    ((parallelToolResult stringifyP c oracle prompt items).isErrorFlag = true ↔
      (executeParallel c oracle prompt items).2 ≠ []) ∧
    (parallelToolResult stringifyP c oracle prompt items).text =
      stringifyP (executeParallel c oracle prompt items) ∧
    ((mapReduceToolResult stringifyM c oracle mapPrompt reducePrompt items
        initialValue).isErrorFlag = true ↔
      (executeMapReduce c oracle mapPrompt reducePrompt items initialValue).2 ≠ []) ∧
    (mapReduceToolResult stringifyM c oracle mapPrompt reducePrompt items
        initialValue).text =
      stringifyM (executeMapReduce c oracle mapPrompt reducePrompt items initialValue) := by
  refine ⟨?_, rfl, ?_, rfl⟩ <;>
    simp [parallelToolResult, mapReduceToolResult, List.length_pos]

/-- Claim C3: for a single delegate call with the process behaviour
given, exit code zero resolves with the pair of output texts and the
handler returns stdout when non-empty, otherwise stderr, with no error
flag; a nonzero exit code rejects with a message carrying the exit
code and the full stderr text. -/
theorem delegate_exit_contract (oracle : Oracle) (cmd out err : String) (code : Int)
    (h : oracle (cmd ++ "\n") = .exited code out err) :
    (code = 0 →
      safeCommandPipe oracle cmd false = .ok (out, err) ∧
      executeMcpClient oracle cmd =
        { text := if out = "" then err else out, isErrorFlag := false }) ∧
    (code ≠ 0 →
      safeCommandPipe oracle cmd false =
        .error ("Command failed with code " ++ toString code ++ ". stderr: " ++ err)) := by
  have hpipe : safeCommandPipe oracle cmd false =
      if code = 0 then .ok (out, err)
      else .error ("Command failed with code " ++ toString code ++ ". stderr: " ++ err) := by
    simp [safeCommandPipe, h]
  constructor
  · intro h0
    rw [if_pos h0] at hpipe
    exact ⟨hpipe, by simp [executeMcpClient, hpipe]⟩
  · intro hne
    rw [if_neg hne] at hpipe
    exact hpipe

/-- Witness for C3: a concrete oracle exercising both the zero-exit
and the nonzero-exit branch of the contract. -/
theorem delegate_exit_contract_witness :
    (safeCommandPipe oracleSingle "q" false = .ok ("out", "diag") ∧
     executeMcpClient oracleSingle "q" = { text := "out", isErrorFlag := false }) ∧
    safeCommandPipe oracleSingle "z" false =
      .error ("Command failed with code " ++ toString (5 : Int) ++ ". stderr: " ++ "oops") :=
  ⟨(delegate_exit_contract oracleSingle "q" "out" "diag" 0 rfl).1 rfl,
   (delegate_exit_contract oracleSingle "z" "" "oops" 5 rfl).2 (by decide)⟩

/-- Claim C7: executeMapReduce always returns normally; either no
rejection escaped the reduce loop and the error list is exactly the
map-phase error list, or a single reduce step rejected, the rejection
was caught once by the outer catch, exactly one summary message was
appended to the error list, and the accumulator reached so far was
returned. -/
theorem mapReduce_catch_once (c : Nat) (oracle : Oracle) (mapPrompt reducePrompt : String)
    (items : List String) (initialValue : Option String) :
    (executeMapReduce c oracle mapPrompt reducePrompt items initialValue).2 =
        (mapPhase c oracle mapPrompt items).2 ∨
    ∃ done r rest a m,
      (mapPhase c oracle mapPrompt items).1 = done ++ r :: rest ∧
      reduceFold oracle reducePrompt done (initialValue.getD "") = .ok a ∧
      safeCommandPipe oracle (formatReduce reducePrompt a r) true = .error m ∧
      executeMapReduce c oracle mapPrompt reducePrompt items initialValue =
        (a, (mapPhase c oracle mapPrompt items).2 ++
          ["Map-reduce operation failed: " ++ m]) := by
  unfold executeMapReduce
  cases hr : reduceFold oracle reducePrompt (mapPhase c oracle mapPrompt items).1
      (initialValue.getD "") with
  | ok acc => left; simp [hr]
  | error e =>
    obtain ⟨a, m⟩ := e
    right
    obtain ⟨done, r, rest, h1, h2, h3⟩ :=
      reduceFold_error_split oracle reducePrompt _ _ a m hr
    exact ⟨done, r, rest, a, m, h1, h2, h3, by simp [hr]⟩

/-- Counterexample to claim C1 as stated: a concrete run in which the
single item maps successfully (so there is no map-phase failure), the
reduce step has a delegate call exiting nonzero, and the returned error list
is nonetheless non-empty: the reduce-phase failure is appended to the
error list (and, as the amended claim records, the loop is aborted),
contradicting that a failing reduce step adds nothing and that the
error list contains only map-phase failures. -/
theorem mapReduce_reduce_fail_cex :
    mapItemOutcome oracleReduceBoom "{item}" "a" = .success "A" ∧
    safeCommandPipe oracleReduceBoom
      (formatReduce "{accumulator}{result}" "" "A") true =
      .error ("Command failed with code 1. stderr: boom") ∧
    (executeMapReduce 10 oracleReduceBoom "{item}" "{accumulator}{result}" ["a"] none).2 =
      ["Map-reduce operation failed: Command failed with code 1. stderr: boom"] ∧
    (executeMapReduce 10 oracleReduceBoom "{item}" "{accumulator}{result}" ["a"] none).2 ≠
      [] := by
  refine ⟨by rfl, by rfl, by rfl, by decide⟩

/-- Claim C1 (amended): a reduce step whose delegate call fails
(nonzero exit or start failure) rejects; the rejection escapes the
reduce loop to the outer catch, so the accumulator value reached
before that step is returned unchanged, ONE summary error message is
appended after the map-phase error list, and the remaining reduce
steps (rest) are never executed (the result does not depend on
them). -/
theorem mapReduce_reduce_fail_aborts (c : Nat) (oracle : Oracle)
    (mapPrompt reducePrompt : String) (items : List String)
    (initialValue : Option String) (done : List String) (r : String)
    (rest : List String) (a m : String)
    (hsplit : (mapPhase c oracle mapPrompt items).1 = done ++ r :: rest)
    (hdone : reduceFold oracle reducePrompt done (initialValue.getD "") = .ok a)
    (hfail : safeCommandPipe oracle (formatReduce reducePrompt a r) true = .error m) :
    executeMapReduce c oracle mapPrompt reducePrompt items initialValue =
      (a, (mapPhase c oracle mapPrompt items).2 ++
        ["Map-reduce operation failed: " ++ m]) := by
  simp only [executeMapReduce]
  rw [hsplit, reduceFold_append, hdone]
  simp [reduceFold, hfail]

/-- Witness for the amended C1 at a concrete input. -/
theorem mapReduce_reduce_fail_aborts_witness :
    executeMapReduce 10 oracleReduceBoom "{item}" "{accumulator}{result}" ["a"] none =
      ("", ["Map-reduce operation failed: " ++
        "Command failed with code 1. stderr: boom"]) := by
  have h := mapReduce_reduce_fail_aborts 10 oracleReduceBoom "{item}"
    "{accumulator}{result}" ["a"] none [] "A" [] ""
    "Command failed with code 1. stderr: boom" (by rfl) (by rfl) (by rfl)
  simpa using h

/-- Claim C10: a reduce step whose process exits with status zero but
empty stdout leaves the accumulator unchanged, appends nothing to the
error list, and the remaining reduce steps still execute: the
operation behaves exactly as if that step were skipped. -/
theorem reduce_empty_stdout_skips (c : Nat) (oracle : Oracle)
    (mapPrompt reducePrompt : String) (items : List String)
    (initialValue : Option String) (done : List String) (r : String)
    (rest : List String) (a e : String)
    (hsplit : (mapPhase c oracle mapPrompt items).1 = done ++ r :: rest)
    (hdone : reduceFold oracle reducePrompt done (initialValue.getD "") = .ok a)
    (hstep : safeCommandPipe oracle (formatReduce reducePrompt a r) true = .ok ("", e)) :
    reduceFold oracle reducePrompt (r :: rest) a = reduceFold oracle reducePrompt rest a ∧
    executeMapReduce c oracle mapPrompt reducePrompt items initialValue =
      (match reduceFold oracle reducePrompt rest a with
       | .ok acc => (acc, (mapPhase c oracle mapPrompt items).2)
       | .error (acc, msg) =>
           (acc, (mapPhase c oracle mapPrompt items).2 ++
             ["Map-reduce operation failed: " ++ msg])) := by
  have hskip : reduceFold oracle reducePrompt (r :: rest) a =
      reduceFold oracle reducePrompt rest a := by
    rw [reduceFold, hstep]
    simp
  refine ⟨hskip, ?_⟩
  simp only [executeMapReduce]
  rw [hsplit, reduceFold_append, hdone]
  simp only [reduceFold, hstep]
  cases hres : reduceFold oracle reducePrompt rest a with
  | ok acc => simp [hres]
  | error e2 => obtain ⟨acc, msg⟩ := e2; simp [hres]

/-- Witness for C10 at a concrete input: the first reduce step
resolves with empty stdout, the second still runs and advances the
accumulator. -/
theorem reduce_empty_stdout_skips_witness :
    reduceFold oracleEmptyReduce "{result}" ["A", "B"] "" =
      reduceFold oracleEmptyReduce "{result}" ["B"] "" ∧
    executeMapReduce 2 oracleEmptyReduce "{item}" "{result}" ["a", "b"] none =
      ("RB", []) := by
  have h := reduce_empty_stdout_skips 2 oracleEmptyReduce "{item}" "{result}"
    ["a", "b"] none [] "A" ["B"] "" "quiet" (by rfl) (by rfl) (by rfl)
  exact ⟨h.1, by rw [h.2]; rfl⟩

/-- Claim C9: the map phase collects the successful outputs in the
original item order (Promise.all returns the chunk results in
submission order, filter(Boolean) preserves it, and chunks are appended
in order), the failure messages likewise, and the reduce phase folds
exactly this order-preserving list of successful map outputs. -/
theorem mapPhase_order_preserved (c : Nat) (hc : 1 ≤ c) (oracle : Oracle)
    (mapPrompt reducePrompt : String) (items : List String)
    (initialValue : Option String) :
    (mapPhase c oracle mapPrompt items).1 =
      items.filterMap (fun it => successOf (mapItemOutcome oracle mapPrompt it)) ∧
    (mapPhase c oracle mapPrompt items).2 =
      items.filterMap (fun it => failureOf (mapItemOutcome oracle mapPrompt it)) ∧
    executeMapReduce c oracle mapPrompt reducePrompt items initialValue =
      (match reduceFold oracle reducePrompt
          (items.filterMap (fun it => successOf (mapItemOutcome oracle mapPrompt it)))
          (initialValue.getD "") with
       | .ok acc =>
           (acc, items.filterMap (fun it => failureOf (mapItemOutcome oracle mapPrompt it)))
       | .error (acc, msg) =>
           (acc, items.filterMap (fun it => failureOf (mapItemOutcome oracle mapPrompt it))
             ++ ["Map-reduce operation failed: " ++ msg])) := by
  have h1 : mapPhase c oracle mapPrompt items =
      (items.filterMap (fun it => successOf (mapItemOutcome oracle mapPrompt it)),
       items.filterMap (fun it => failureOf (mapItemOutcome oracle mapPrompt it))) := by
    rw [mapPhase, collectOutcomes_eq, flatten_chunksOf c hc]
  refine ⟨by rw [h1], by rw [h1], ?_⟩
  simp only [executeMapReduce, h1]

/-- Witness for C9 at a concrete input with two chunks. -/
theorem mapPhase_order_preserved_witness :
    (mapPhase 1 oracleEmptyReduce "{item}" ["a", "b"]).1 =
      List.filterMap (fun it => successOf (mapItemOutcome oracleEmptyReduce "{item}" it))
        ["a", "b"] ∧
    (mapPhase 1 oracleEmptyReduce "{item}" ["a", "b"]).1 = ["A", "B"] :=
  ⟨(mapPhase_order_preserved 1 (by decide) oracleEmptyReduce "{item}" "{result}"
      ["a", "b"] none).1, by rfl⟩

/-- Claim C2: in a parallel dispatch over items containing exactly one
failing item x, with every other item succeeding, and for EVERY order
in which the calls of each chunk may settle: exactly one failure
message is recorded, it carries the literal item value and the error
detail, the recorded successes are exactly the outputs of the other items
(so none is lost), and their count is the item count minus one. -/
theorem parallel_single_failure_isolated (c : Nat) (hc : 1 ≤ c) (oracle : Oracle)
    (prompt x : String) (items : List String) (ords : List (List String))
    (hord : List.Forall₂ (fun ch ord => ch.Perm ord) (chunksOf c items) ords)
    (hcount : items.count x = 1)
    (hfail : ∃ m, parItemOutcome oracle prompt x = .failure m)
    (hok : ∀ y ∈ items, y ≠ x → ∃ out, parItemOutcome oracle prompt y = .success out) :
    (executeParallelWith oracle prompt ords).1.length = items.length - 1 ∧
    (executeParallelWith oracle prompt ords).1.Perm
      (items.filterMap (fun it => successOf (parItemOutcome oracle prompt it))) ∧
    ∃ m, (executeParallelWith oracle prompt ords).2 = [m] ∧
      ∃ d, m = "Error processing item \"" ++ x ++ "\": " ++ d ∨
           m = "Failed to process item \"" ++ x ++ "\": " ++ d := by
  obtain ⟨mf, hmf⟩ := hfail
  have hEq : executeParallelWith oracle prompt ords =
      ((ords.flatten).filterMap (fun it => successOf (parItemOutcome oracle prompt it)),
       (ords.flatten).filterMap (fun it => failureOf (parItemOutcome oracle prompt it))) :=
    collectOutcomes_eq _ _
  have hperm : items.Perm ords.flatten := by
    have h1 := flatten_perm_of_forall₂ _ _ hord
    rwa [flatten_chunksOf c hc items] at h1
  have hsucc : (ords.flatten).filterMap
      (fun it => successOf (parItemOutcome oracle prompt it)) |>.Perm
      (items.filterMap (fun it => successOf (parItemOutcome oracle prompt it))) :=
    (hperm.symm).filterMap _
  have hsx : successOf (parItemOutcome oracle prompt x) = none := by
    rw [hmf]; rfl
  have hlen : (items.filterMap
      (fun it => successOf (parItemOutcome oracle prompt it))).length =
      items.length - 1 := by
    refine length_filterMap_of_single_none _ items x hcount ?_ hsx
    intro y hy hyx
    obtain ⟨o, ho⟩ := hok y hy hyx
    exact ⟨o, by rw [ho]; rfl⟩
  have herr : (items.filterMap
      (fun it => failureOf (parItemOutcome oracle prompt it))) = [mf] := by
    refine filterMap_eq_singleton_of_count_one _ items x mf hcount ?_ (by rw [hmf]; rfl)
    intro y hy hyx
    obtain ⟨o, ho⟩ := hok y hy hyx
    rw [ho]; rfl
  refine ⟨?_, ?_, mf, ?_, ?_⟩
  · rw [hEq]
    simpa [hlen] using hsucc.length_eq
  · rw [hEq]
    exact hsucc
  · rw [hEq]
    have herr2 : ((ords.flatten).filterMap
        (fun it => failureOf (parItemOutcome oracle prompt it))).Perm [mf] :=
      herr ▸ (hperm.symm).filterMap (fun it => failureOf (parItemOutcome oracle prompt it))
    exact List.perm_singleton.mp herr2
  · exact classifyOutput_failure_shape x
      (safeCommandPipe oracle (prompt ++ " " ++ x) true) mf hmf

/-- Witness for C2 at a concrete input: three items in chunks of two,
the middle one failing, the calls of the first chunk settling in
reversed order. -/
theorem parallel_single_failure_isolated_witness :
    (executeParallelWith oracleOneBad "p" [["b", "u"], ["v"]]).1.length =
      (["u", "b", "v"] : List String).length - 1 ∧
    (executeParallelWith oracleOneBad "p" [["b", "u"], ["v"]]).2 =
      ["Failed to process item \"b\": Command failed with code 7. stderr: bad"] := by
  have h := parallel_single_failure_isolated 2 (by decide) oracleOneBad "p" "b"
    ["u", "b", "v"] [["b", "u"], ["v"]]
    (by constructor
        · decide
        · constructor
          · decide
          · exact List.Forall₂.nil)
    (by decide)
    ⟨"Failed to process item \"b\": Command failed with code 7. stderr: bad", by rfl⟩
    (by intro y hy hyx
        simp only [List.mem_cons, List.not_mem_nil, or_false] at hy
        rcases hy with rfl | rfl | rfl
        · exact ⟨"ok", by rfl⟩
        · exact absurd rfl hyx
        · exact ⟨"ok", by rfl⟩)
  obtain ⟨h1, _, m, hm, _⟩ := h
  refine ⟨h1, ?_⟩
  rw [hm]
  have : m = "Failed to process item \"b\": Command failed with code 7. stderr: bad" := by
    have he : (executeParallelWith oracleOneBad "p" [["b", "u"], ["v"]]).2 =
        ["Failed to process item \"b\": Command failed with code 7. stderr: bad"] := by rfl
    rw [he] at hm
    exact (List.cons.injEq _ _ _ _ ▸ hm.symm).1
  rw [this]

/-!  Helper lemmas for the dispatch event traces. -/

theorem pending_cons (e : DEvent) (t : List DEvent) :
    pending (e :: t) = eventWeight e + pending t := by
  simp [pending]

theorem pending_append (a b : List DEvent) :
    pending (a ++ b) = pending a + pending b := by
  simp [pending]

theorem pending_map_start (l : List Nat) :
    pending (l.map DEvent.start) = l.length := by
  induction l with
  | nil => simp [pending]
  | cons a as ih =>
    rw [List.map_cons, pending_cons, ih]
    simp [eventWeight]
    omega

theorem pending_map_settle (l : List Nat) :
    pending (l.map DEvent.settle) = -(l.length : Int) := by
  induction l with
  | nil => simp [pending]
  | cons a as ih =>
    rw [List.map_cons, pending_cons, ih]
    simp [eventWeight]

theorem seg_pending_zero (ch ord : List Nat) (hlen : ord.length = ch.length) :
    pending (chunkEvents ch ord) = 0 := by
  unfold chunkEvents
  rw [pending_append, pending_map_start, pending_map_settle, hlen]
  omega

theorem seg_prefix_bound (cI : Nat) (ch ord : List Nat) (hch : ch.length ≤ cI)
    (hlen : ord.length = ch.length) (p q : List DEvent)
    (h : chunkEvents ch ord = p ++ q) : pending p ≤ (cI : Int) := by
  unfold chunkEvents at h
  rcases List.append_eq_append_iff.mp h with ⟨a, hp, hsettle⟩ | ⟨a, hstart, hq⟩
  · obtain ⟨m₁, m₂, _, hm1, _⟩ := List.map_eq_append_iff.mp hsettle
    rw [hp, pending_append, pending_map_start, ← hm1, pending_map_settle]
    have : (ch.length : Int) ≤ cI := by exact_mod_cast hch
    omega
  · obtain ⟨l₁, l₂, hch2, hl1, _⟩ := List.map_eq_append_iff.mp hstart
    rw [← hl1, pending_map_start]
    have h1 : l₁.length ≤ ch.length := by
      rw [hch2, List.length_append]; omega
    have : (l₁.length : Int) ≤ ch.length := by exact_mod_cast h1
    have : (ch.length : Int) ≤ cI := by exact_mod_cast hch
    omega

theorem flatten_prefix_bound (cI : Nat) (L : List (List DEvent))
    (hseg : ∀ s ∈ L, pending s = 0 ∧ ∀ p q, s = p ++ q → pending p ≤ (cI : Int))
    (p q : List DEvent) (h : L.flatten = p ++ q) : pending p ≤ (cI : Int) := by
  induction L generalizing p q with
  | nil =>
    simp only [List.flatten_nil] at h
    obtain ⟨hp, _⟩ := List.append_eq_nil.mp h.symm
    subst hp
    simp [pending]
  | cons s L ih =>
    simp only [List.flatten_cons] at h
    rcases List.append_eq_append_iff.mp h.symm with ⟨a, hp, hfl⟩ | ⟨a, hs, hq⟩
    · exact (hseg s (by simp)).2 p a hp
    · rw [hs, pending_append, (hseg s (by simp)).1]
      have := ih (fun t ht => hseg t (by simp [ht])) a q hq
      omega

theorem mem_zipWith_of_forall₂ {α β γ : Type} {R : α → β → Prop} (f : α → β → γ)
    (l₁ : List α) (l₂ : List β) (h : List.Forall₂ R l₁ l₂) (s : γ)
    (hs : s ∈ List.zipWith f l₁ l₂) : ∃ a b, a ∈ l₁ ∧ R a b ∧ s = f a b := by
  induction h with
  | nil => simp at hs
  | cons hab htl ih =>
    simp only [List.zipWith_cons_cons, List.mem_cons] at hs
    rcases hs with rfl | hs
    · exact ⟨_, _, by simp, hab, rfl⟩
    · obtain ⟨a, b, ha, hr, rfl⟩ := ih hs
      exact ⟨a, b, by simp [ha], hr, rfl⟩

theorem trace_chunk_order (c n : Nat) (hc : 1 ≤ c) (ords : List (List Nat))
    (hord : List.Forall₂ (fun ch ord => ch.Perm ord) (chunksOf c (List.range n)) ords)
    (k : Nat) (hk : k + 1 < (chunksOf c (List.range n)).length) :
    ∃ p q, dispatchTrace (chunksOf c (List.range n)) ords = p ++ q ∧
      (∀ i ∈ (chunksOf c (List.range n)).getD k [], DEvent.settle i ∈ p) ∧
      (∀ j ∈ (chunksOf c (List.range n)).getD (k + 1) [],
        DEvent.start j ∈ q ∧ DEvent.start j ∉ p) := by
  have hlen2 : (chunksOf c (List.range n)).length = ords.length := hord.length_eq
  have hLlen : (List.zipWith chunkEvents (chunksOf c (List.range n)) ords).length =
      (chunksOf c (List.range n)).length := by
    simp [List.length_zipWith, ← hlen2]
  have hkCH : k < (chunksOf c (List.range n)).length := by omega
  have hk1CH : k + 1 < (chunksOf c (List.range n)).length := hk
  have hkords : k < ords.length := by omega
  have hk1ords : k + 1 < ords.length := by omega
  have hkL : k < (List.zipWith chunkEvents (chunksOf c (List.range n)) ords).length := by
    omega
  have hk1L : k + 1 <
      (List.zipWith chunkEvents (chunksOf c (List.range n)) ords).length := by omega
  have hgdk : (chunksOf c (List.range n)).getD k [] =
      (chunksOf c (List.range n))[k] := by
    simp [List.getD_eq_getElem?_getD, List.getElem?_eq_getElem hkCH]
  have hgdk1 : (chunksOf c (List.range n)).getD (k + 1) [] =
      (chunksOf c (List.range n))[k + 1] := by
    simp [List.getD_eq_getElem?_getD, List.getElem?_eq_getElem hk1CH]
  have hpw : List.Pairwise List.Disjoint (chunksOf c (List.range n)) := by
    have hnodup : (chunksOf c (List.range n)).flatten.Nodup := by
      rw [flatten_chunksOf c hc]
      exact List.nodup_range n
    exact (List.nodup_flatten.mp hnodup).2
  refine ⟨((List.zipWith chunkEvents (chunksOf c (List.range n)) ords).take (k + 1)).flatten,
    ((List.zipWith chunkEvents (chunksOf c (List.range n)) ords).drop (k + 1)).flatten,
    ?_, ?_, ?_⟩
  · unfold dispatchTrace
    rw [← List.flatten_append, List.take_append_drop]
  · intro i hi
    rw [hgdk] at hi
    have hpermk : (chunksOf c (List.range n))[k].Perm ords[k] :=
      List.forall₂_iff_get.mp hord |>.2 k hkCH hkords
    have hio : i ∈ ords[k] := hpermk.mem_iff.mp hi
    refine List.mem_flatten.mpr
      ⟨(List.zipWith chunkEvents (chunksOf c (List.range n)) ords)[k], ?_, ?_⟩
    · have htk : k <
          ((List.zipWith chunkEvents (chunksOf c (List.range n)) ords).take
            (k + 1)).length := by
        simp [List.length_take]
        omega
      have h0 : ((List.zipWith chunkEvents (chunksOf c (List.range n)) ords).take
          (k + 1))[k] =
          (List.zipWith chunkEvents (chunksOf c (List.range n)) ords)[k] := by
        simp [List.getElem_take]
      rw [← h0]
      exact List.getElem_mem _
    · rw [List.getElem_zipWith]
      unfold chunkEvents
      exact List.mem_append_right _ (List.mem_map_of_mem _ hio)
  · intro j hj
    rw [hgdk1] at hj
    constructor
    · have hdroplen : 0 <
          ((List.zipWith chunkEvents (chunksOf c (List.range n)) ords).drop
            (k + 1)).length := by
        simp [List.length_drop]
        omega
      have h0 : ((List.zipWith chunkEvents (chunksOf c (List.range n)) ords).drop
          (k + 1))[0] =
          (List.zipWith chunkEvents (chunksOf c (List.range n)) ords)[k + 1] := by
        rw [List.getElem_drop]
      refine List.mem_flatten.mpr
        ⟨(List.zipWith chunkEvents (chunksOf c (List.range n)) ords)[k + 1], ?_, ?_⟩
      · rw [← h0]
        exact List.getElem_mem _
      · rw [List.getElem_zipWith]
        unfold chunkEvents
        exact List.mem_append_left _ (List.mem_map_of_mem _ hj)
    · intro hmem
      obtain ⟨seg, hsegmem, hjseg⟩ := List.mem_flatten.mp hmem
      obtain ⟨m, hm, hms⟩ := List.mem_iff_getElem.mp hsegmem
      have hmk : m < k + 1 := by
        simp [List.length_take] at hm
        omega
      have hmL : m < (List.zipWith chunkEvents (chunksOf c (List.range n)) ords).length := by
        omega
      have hmCH : m < (chunksOf c (List.range n)).length := by omega
      have hseg2 : seg = chunkEvents (chunksOf c (List.range n))[m] ords[m] := by
        rw [← hms]
        rw [show ((List.zipWith chunkEvents (chunksOf c (List.range n)) ords).take
            (k + 1))[m] =
            (List.zipWith chunkEvents (chunksOf c (List.range n)) ords)[m] by
          simp [List.getElem_take]]
        rw [List.getElem_zipWith]
      have hjm : j ∈ (chunksOf c (List.range n))[m] := by
        rw [hseg2] at hjseg
        unfold chunkEvents at hjseg
        rcases List.mem_append.mp hjseg with h1 | h1
        · obtain ⟨y, hy, hyj⟩ := List.mem_map.mp h1
          cases hyj
          exact hy
        · obtain ⟨y, _, hyj⟩ := List.mem_map.mp h1
          simp at hyj
      have hdisj : List.Disjoint (chunksOf c (List.range n))[m]
          (chunksOf c (List.range n))[k + 1] :=
        List.pairwise_iff_getElem.mp hpw m (k + 1) hmCH hk1CH (by omega)
      exact hdisj hjm hj

/-- Claim C4: the dispatcher partitions the items into consecutive
chunks of size equal to the ceiling (only the final chunk may be
smaller), preserving the original order, the number of chunks is
ceil(n / c), and in every dispatch trace (any per-chunk settling
order) every call of chunk k+1 starts only after every call of chunk k
has settled. -/
theorem dispatch_chunk_partition (c : Nat) (hc : 1 ≤ c) (items : List String) :
    (chunksOf c items).flatten = items ∧
    (chunksOf c items).length = (items.length + c - 1) / c ∧
    (∀ ch ∈ chunksOf c items, ch.length ≤ c ∧ ch ≠ []) ∧
    (∀ k, k + 1 < (chunksOf c items).length →
      ((chunksOf c items).getD k []).length = c) ∧
    (∀ ords : List (List Nat),
      List.Forall₂ (fun ch ord => ch.Perm ord)
        (chunksOf c (List.range items.length)) ords →
      ∀ k, k + 1 < (chunksOf c (List.range items.length)).length →
        ∃ p q, dispatchTrace (chunksOf c (List.range items.length)) ords = p ++ q ∧
          (∀ i ∈ (chunksOf c (List.range items.length)).getD k [],
            DEvent.settle i ∈ p) ∧
          (∀ j ∈ (chunksOf c (List.range items.length)).getD (k + 1) [],
            DEvent.start j ∈ q ∧ DEvent.start j ∉ p)) :=
  ⟨flatten_chunksOf c hc items, length_chunksOf c items,
   fun ch h => ⟨length_le_of_mem_chunksOf c items ch h,
     ne_nil_of_mem_chunksOf c hc items ch h⟩,
   fun k hk => chunksOf_full c items k hk,
   fun ords hord k hk => trace_chunk_order c items.length hc ords hord k hk⟩

/-- Witness for C4 at a concrete input: three items, ceiling two. -/
theorem dispatch_chunk_partition_witness :
    (chunksOf 2 ["a", "b", "c"]).flatten = ["a", "b", "c"] ∧
    (chunksOf 2 ["a", "b", "c"]).length = 2 :=
  ⟨(dispatch_chunk_partition 2 (by decide) ["a", "b", "c"]).1,
   (dispatch_chunk_partition 2 (by decide) ["a", "b", "c"]).2.1⟩

/-- Claim C5: in every dispatch trace over n items with ceiling c (for
any per-chunk settling order), at no point are more than c delegate
calls outstanding: every prefix of the trace has at most c more starts
than settles. -/
theorem dispatch_concurrency_bound (c n : Nat) (hc : 1 ≤ c) (ords : List (List Nat))
    (hord : List.Forall₂ (fun ch ord => ch.Perm ord) (chunksOf c (List.range n)) ords)
    (p q : List DEvent)
    (hsplit : dispatchTrace (chunksOf c (List.range n)) ords = p ++ q) :
    pending p ≤ (c : Int) := by
  unfold dispatchTrace at hsplit
  refine flatten_prefix_bound c _ ?_ p q hsplit
  intro s hs
  obtain ⟨ch, ord, hchmem, hperm2, rfl⟩ :=
    mem_zipWith_of_forall₂ chunkEvents _ _ hord s hs
  have hlen : ord.length = ch.length := hperm2.length_eq.symm
  have hchlen : ch.length ≤ c := length_le_of_mem_chunksOf c _ ch hchmem
  exact ⟨seg_pending_zero ch ord hlen,
    fun p' q' h' => seg_prefix_bound c ch ord hchlen hlen p' q' h'⟩

/-- Witness for C5 at a concrete input: three items, ceiling two, the
first chunk settling in reversed order, the whole trace as prefix. -/
theorem dispatch_concurrency_bound_witness :
    pending (dispatchTrace (chunksOf 2 (List.range 3)) [[1, 0], [2]]) ≤ (2 : Int) :=
  dispatch_concurrency_bound 2 3 (by decide) [[1, 0], [2]] (by decide) _ []
    (List.append_nil _).symm

end Inception
